import Mathlib

/-!
Verification of the RepAlloc repository: a shallow embedding of the
ILP-construction logic of `formulations.py` (class `Formulation` and its
subclasses `LinkBasedFormulation` and `PathBasedFormulation`), of the
feasibility pre-check, and of the solution post-processing of
`solution.py` (`Solution._interpret_variables`).

Modelling conventions:
* Edge lengths, costs, `L_max`, `alpha` and solver values are rationals
  (`ℚ`); the Python code uses floats but no float-specific behaviour is
  relied upon by the verified properties.
* The networkx library calls are modelled as oracles stored in the graph
  container: `sp i j` stands for the result
  `nx.single_source_dijkstra(G, source=i, target=j, weight='length')`
  (a pair of the path cost and the node list of the shortest path), and
  `isDescendant a b` stands for `b in nx.descendants(G, source=a)`.
  Theorems that need them assume the two properties these library
  functions guarantee: a returned path starts at its source and ends at
  its target, and a node is never its own descendant.
* The CPLEX model is represented explicitly: a list of rows (linear
  constraints, each with a name, a sense and a right-hand side) and a
  list of variables (each with an optional name, objective coefficient,
  upper bound, type and sparse column).  The dictionary
  `Formulation.varmap`, keyed in Python by the CPLEX variable index, is
  represented as an optional `vm` field attached to each variable.
-/

/-- Sense of a linear constraint: `'L'` (less-or-equal) or `'E'` (equality)
as used by `cplex.linear_constraints.add`. -/
inductive Sense where
  | le : Sense
  | eq : Sense
deriving DecidableEq, Repr

/-- Objective sense, set in `Formulation.__init__` via
`self.cplex.objective.set_sense`. -/
inductive ObjSense where
  | minimize : ObjSense
  | maximize : ObjSense
deriving DecidableEq, Repr

/-- One linear constraint row: name, sense and right-hand side. -/
structure Row where
  name : String
  sense : Sense
  rhs : ℚ
deriving DecidableEq, Repr

/-- A `varmap` entry: the tuple stored in `Formulation.varmap` when a
decision variable is created.  The link-based formulation stores
`(q, sp, path_cost)` (formulations.py line 254), the path-based
formulation stores `(q, full_path, r_up, full_path_cost)` (line 324). -/
inductive VMapEntry where
  | link : (String × String) → List String → ℚ → VMapEntry
  | pathv : (String × String) → List String → List String → ℚ → VMapEntry
deriving DecidableEq, Repr

/-- The cost component of a `varmap` entry (the last tuple element). -/
def VMapEntry.cost : VMapEntry → ℚ
  | .link _ _ c => c
  | .pathv _ _ _ c => c

/-- A CPLEX decision variable as created by `cplex.variables.add`:
optional name (CPLEX auto-names unnamed variables, and its default names
never start with `"y_"`), objective coefficient, upper bound, type
(always `'B'` here) and sparse column of (row name, coefficient) pairs.
The `vm` field carries the `varmap` entry recorded for the variable, if
any. -/
structure CVar where
  name : Option String
  obj : ℚ
  ub : ℚ
  vtype : Char
  column : List (String × ℚ)
  vm : Option VMapEntry
deriving DecidableEq, Repr

/-- The constructed ILP: objective sense, constraint rows and variables
(in creation order). -/
structure Model where
  objSense : ObjSense
  rows : List Row
  vars : List CVar
deriving DecidableEq, Repr

/-- `itertools.combinations(l, r=2)` on a list, in Python order. -/
def combos2 : List String → List (String × String)
  | [] => []
  | x :: xs => xs.map (fun y => (x, y)) ++ combos2 xs

/-- Embedding of `GraphContainer` (graph_tools.py) restricted to the data
the formulations read: the end nodes, the candidate repeater nodes, the
weighted edge list (each undirected edge `{a, b}` with its `'length'`
attribute appears once), and the two networkx oracles described in the
file header. -/
structure GraphContainer where
  endNodes : List String
  possibleRepNodes : List String
  edges : List (String × String × ℚ)
  sp : String → String → ℚ × List String
  isDescendant : String → String → Bool

/-- `GraphContainer.num_repeater_nodes`. -/
def GraphContainer.numRepeaterNodes (gc : GraphContainer) : ℕ :=
  gc.possibleRepNodes.length

/-- `GraphContainer.unique_end_node_pairs`:
`itertools.combinations(end_nodes, r=2)`. -/
def GraphContainer.uniqueEndNodePairs (gc : GraphContainer) : List (String × String) :=
  combos2 gc.endNodes

/-- `GraphContainer.num_unique_pairs`. -/
def GraphContainer.numUniquePairs (gc : GraphContainer) : ℕ :=
  gc.uniqueEndNodePairs.length

/-- The validated parameter set stored on a `Formulation` after
`__init__` finishes: `N_max`, `L_max`, `D`, `K`, `alpha`. -/
structure Params where
  Nmax : ℕ
  Lmax : ℚ
  D : ℕ
  K : ℕ
  alpha : ℚ
deriving DecidableEq, Repr

/-- `pairname = "(" + q[0] + "," + q[1] + ")"`. -/
def pairName (q : String × String) : String :=
  "(" ++ (q.1 ++ ("," ++ (q.2 ++ ")")))

/-- Row name `'LinkXYCon_' + u` (link-based x-y linking constraint). -/
def linkXYConName (u : String) : String :=
  "LinkXYCon_" ++ u

/-- Row name `'STCon' + pairname`. -/
def stConName (q : String × String) : String :=
  "STCon" ++ pairName q

/-- Row name `'DisLinkCon' + pairname + '_' + u`. -/
def disLinkConName (q : String × String) (u : String) : String :=
  "DisLinkCon" ++ (pairName q ++ ("_" ++ u))

/-- Row name `'SourceCon' + pairname + '#' + str(k)`. -/
def sourceConName (q : String × String) (k : ℕ) : String :=
  "SourceCon" ++ (pairName q ++ ("#" ++ toString k))

/-- Row name `'FlowCon' + pairname + '_' + u + '#' + str(k)`. -/
def flowConName (q : String × String) (u : String) (k : ℕ) : String :=
  "FlowCon" ++ (pairName q ++ ("_" ++ (u ++ ("#" ++ toString k))))

/-- Row name `'SinkCon' + pairname + '#' + str(k)`. -/
def sinkConName (q : String × String) (k : ℕ) : String :=
  "SinkCon" ++ (pairName q ++ ("#" ++ toString k))

/-- Row name `'MaxRepCon' + pairname + '#' + str(k)`. -/
def maxRepConName (q : String × String) (k : ℕ) : String :=
  "MaxRepCon" ++ (pairName q ++ ("#" ++ toString k))

/-- Variable name `"x" + pairname + "_" + str(i) + "," + str(j) + '#' + str(k)`. -/
def xVarName (q : String × String) (i j : String) (k : ℕ) : String :=
  "x" ++ (pairName q ++ ("_" ++ (i ++ ("," ++ (j ++ ("#" ++ toString k))))))

/-- The rows added by `LinkBasedFormulation._add_constraints`, in order:
the x-y linking constraints, then per unique pair the single-use
constraint `STCon`, the disjointness constraints `DisLinkCon` for every
repeater node and the source of the pair, and for every `k` in
`range(1, K + 1)` the source, flow-conservation, sink and
maximum-repeater constraints. -/
def linkConstraints (gc : GraphContainer) (p : Params) : List Row :=
  (gc.possibleRepNodes.map fun u => ⟨linkXYConName u, .le, 0⟩)
  ++ gc.uniqueEndNodePairs.flatMap (fun q =>
    [⟨stConName q, .le, 1⟩]
    ++ ((gc.possibleRepNodes ++ [q.1]).map fun u => ⟨disLinkConName q u, .le, 1⟩)
    ++ (List.range' 1 p.K).flatMap (fun k =>
      [⟨sourceConName q k, .eq, 1⟩]
      ++ (gc.possibleRepNodes.map fun u => ⟨flowConName q u k, .eq, 0⟩)
      ++ [⟨sinkConName q k, .eq, -1⟩, ⟨maxRepConName q k, .le, (p.Nmax : ℚ)⟩]))

/-- The sparse column of a link-based elementary-link variable
`x_{ij}^{q,k}`, following the four-way case split of
`LinkBasedFormulation._add_variables` on whether `i` is the source
`q[0]` and whether `j` is the sink `q[1]`. -/
def linkColumn (q : String × String) (k : ℕ) (i j : String) : List (String × ℚ) :=
  if i = q.1 then
    if j = q.2 then
      [(sourceConName q k, 1), (sinkConName q k, -1), (stConName q, 1)]
    else
      [(sourceConName q k, 1), (flowConName q j k, -1), (maxRepConName q k, 1),
       (disLinkConName q j, 1), (linkXYConName j, 1)]
  else
    if j = q.2 then
      [(sinkConName q k, -1), (flowConName q i k, 1)]
    else
      [(flowConName q i k, 1), (flowConName q j k, -1), (maxRepConName q k, 1),
       (disLinkConName q j, 1), (linkXYConName j, 1)]

/-- The repeater variables `y_i` of the link-based formulation: objective
coefficient 1, upper bound 1, binary, one column entry `-D` in the
corresponding x-y linking constraint, no `varmap` entry. -/
def linkYVars (gc : GraphContainer) (p : Params) : List CVar :=
  gc.possibleRepNodes.map fun u =>
    ⟨some ("y_" ++ u), 1, 1, 'B', [(linkXYConName u, -(p.D : ℚ))], none⟩

/-- The elementary-link variables of the link-based formulation: for each
unique pair `q`, each `i` in the repeater nodes plus the source, each
`j` in the repeater nodes plus the sink with `i ≠ j`, a variable per
`k` in `range(1, K + 1)` is created exactly when the Dijkstra path cost
from `i` to `j` is at most `L_max`; its objective coefficient is
`alpha * path_cost` and its `varmap` entry is `(q, sp, path_cost)`.
(The Python code pre-computes repeater-to-repeater shortest paths in
`shortest_path_dict`; since that dictionary caches exactly the values of
the same library call, both branches are the single oracle `gc.sp`.) -/
def linkXVars (gc : GraphContainer) (p : Params) : List CVar :=
  gc.uniqueEndNodePairs.flatMap fun q =>
    (gc.possibleRepNodes ++ [q.1]).flatMap fun i =>
      (gc.possibleRepNodes ++ [q.2]).flatMap fun j =>
        if i = j then []
        else
          let pc := gc.sp i j
          if pc.1 ≤ p.Lmax then
            (List.range' 1 p.K).map fun k =>
              ⟨some (xVarName q i j k), p.alpha * pc.1, 1, 'B', linkColumn q k i j,
               some (.link q pc.2 pc.1)⟩
          else []

/-- The full link-based model as built by `Formulation.__init__` with
`read_from_file=False`: minimization sense, then `_add_constraints`,
then `_add_variables` (repeater variables first, then elementary-link
variables). -/
def buildLinkBased (gc : GraphContainer) (p : Params) : Model :=
  ⟨.minimize, linkConstraints gc p, linkYVars gc p ++ linkXVars gc p⟩

/-- Row name `'PairCon' + pairname` (path-based). -/
def pairConName (q : String × String) : String :=
  "PairCon" ++ pairName q

/-- Row name `'LinkCon_' + u` (path-based linking constraint). -/
def linkConName (u : String) : String :=
  "LinkCon_" ++ u

/-- Row name `'NodeDisjointCon' + pairname + '_' + u` (path-based). -/
def ndConName (q : String × String) (u : String) : String :=
  "NodeDisjointCon" ++ (pairName q ++ ("_" ++ u))

/-- The rows added by `PathBasedFormulation._add_constraints`: one
`PairCon` equality per unique pair with right-hand side `K`, one
`LinkCon` inequality per repeater node, and one `NodeDisjointCon`
inequality per pair and per node in the repeater nodes plus the source
of the pair. -/
def pathConstraints (gc : GraphContainer) (p : Params) : List Row :=
  (gc.uniqueEndNodePairs.map fun q => ⟨pairConName q, .eq, (p.K : ℚ)⟩)
  ++ (gc.possibleRepNodes.map fun u => ⟨linkConName u, .le, 0⟩)
  ++ gc.uniqueEndNodePairs.flatMap (fun q =>
    (gc.possibleRepNodes ++ [q.1]).map fun u => ⟨ndConName q u, .le, 1⟩)

/-- The repeater variables of the path-based formulation (added at the
end of `PathBasedFormulation._add_constraints`): objective coefficient
1, upper bound 1, binary, one column entry `-D` in the corresponding
linking constraint, no `varmap` entry. -/
def pathYVars (gc : GraphContainer) (p : Params) : List CVar :=
  gc.possibleRepNodes.map fun u =>
    ⟨some ("y_" ++ u), 1, 1, 'B', [(linkConName u, -(p.D : ℚ))], none⟩

/-- Fuelled embedding of `PathBasedFormulation._generate_paths`.  A call
appends the direct continuation to the sink when its Dijkstra cost is at
most `L_max`, and, while `len(r_up) < N_max`, recurses on every
candidate repeater node that is not already in `r_up`, is reachable from
the current endpoint (`nx.descendants`), and whose Dijkstra cost from
the current endpoint is at most `L_max`.  The fuel argument only bounds
the recursion depth; `generatePaths` below instantiates it with
`N_max - len(r_up)`, which the Python recursion never exceeds (claim
C8). -/
def genPathsF (gc : GraphContainer) (p : Params) :
    ℕ → List String → String → List String → ℚ → List (List String × List String × ℚ)
  | 0, path, sink, r_up, w_p =>
    let pc := gc.sp (path.getLastD "") sink
    if pc.1 ≤ p.Lmax then [(path ++ pc.2.tail, r_up, w_p + pc.1)] else []
  | fuel + 1, path, sink, r_up, w_p =>
    let pc := gc.sp (path.getLastD "") sink
    (if pc.1 ≤ p.Lmax then [(path ++ pc.2.tail, r_up, w_p + pc.1)] else [])
    ++ (if r_up.length < p.Nmax then
          gc.possibleRepNodes.flatMap fun repNode =>
            if repNode ∉ r_up ∧ gc.isDescendant (path.getLastD "") repNode then
              let pc2 := gc.sp (path.getLastD "") repNode
              if pc2.1 ≤ p.Lmax then
                genPathsF gc p fuel (path ++ pc2.2.tail) sink (r_up ++ [repNode]) (w_p + pc2.1)
              else []
            else []
        else [])

/-- `PathBasedFormulation._generate_paths` with the recursion measure
`N_max - len(r_up)` supplied as fuel. -/
def generatePaths (gc : GraphContainer) (p : Params)
    (path : List String) (sink : String) (r_up : List String) (w_p : ℚ) :
    List (List String × List String × ℚ) :=
  genPathsF gc p (p.Nmax - r_up.length) path sink r_up w_p

/-- The path variables of `PathBasedFormulation._add_variables`: for each
unique pair `q` the recursive generation is started from
`path=[q[0]], sink=q[1], r_up=[], w_p=0`; each generated tuple yields an
unnamed binary variable with objective coefficient
`alpha * full_path_cost`, a column with coefficient 1 in the pair
constraint and in the linking and node-disjointness constraints of every
repeater in `r_up`, and the `varmap` entry
`(q, full_path, r_up, full_path_cost)`. -/
def pathXVars (gc : GraphContainer) (p : Params) : List CVar :=
  gc.uniqueEndNodePairs.flatMap fun q =>
    (generatePaths gc p [q.1] q.2 [] 0).map fun tup =>
      ⟨none, p.alpha * tup.2.2, 1, 'B',
       [(pairConName q, 1)] ++ (tup.2.1.map fun u => (linkConName u, 1))
         ++ (tup.2.1.map fun u => (ndConName q u, 1)),
       some (.pathv q tup.1 tup.2.1 tup.2.2)⟩

/-- The full path-based model as built by `Formulation.__init__` with
`read_from_file=False`. -/
def buildPathBased (gc : GraphContainer) (p : Params) : Model :=
  ⟨.minimize, pathConstraints gc p, pathYVars gc p ++ pathXVars gc p⟩

/-- Concatenation of the tails of the Dijkstra segment paths along the
repeater sequence `rs` starting from `a` (the shape in which
`_generate_paths` accumulates its `path` argument: `path + sp[1:]` per
segment). -/
def preTails (gc : GraphContainer) (a : String) : List String → List String
  | [] => []
  | r :: rs => (gc.sp a r).2.tail ++ preTails gc r rs

/-- Sum of the Dijkstra segment costs along the repeater sequence `rs`
starting from `a`. -/
def preCost (gc : GraphContainer) (a : String) : List String → ℚ
  | [] => 0
  | r :: rs => (gc.sp a r).1 + preCost gc r rs

/-- All Dijkstra segment costs along the repeater sequence `rs` starting
from `a` are at most `L_max`. -/
def preOK (gc : GraphContainer) (lmax : ℚ) (a : String) : List String → Bool
  | [] => true
  | r :: rs => decide ((gc.sp a r).1 ≤ lmax) && preOK gc lmax r rs

/-- Consecutive nodes of `a :: rs` are pairwise distinct (each hop of the
repeater chain goes to a different node). -/
def chainNe (a : String) : List String → Bool
  | [] => true
  | r :: rs => decide (a ≠ r) && chainNe r rs

/-- The last element of `a :: rs`: the current endpoint of a partial
chain. -/
def lastOf (a : String) (rs : List String) : String :=
  rs.getLastD a

/-- The tail (everything after the starting node) of the full path built
from the segment chain `a → rs → t`: the partial tails followed by the
tail of the closing Dijkstra segment to `t`. -/
def segTails (gc : GraphContainer) (a : String) (rs : List String) (t : String) : List String :=
  preTails gc a rs ++ (gc.sp (lastOf a rs) t).2.tail

/-- Total cost of the segment chain `a → rs → t`: the partial costs plus
the cost of the closing segment. -/
def chainCost (gc : GraphContainer) (a : String) (rs : List String) (t : String) : ℚ :=
  preCost gc a rs + (gc.sp (lastOf a rs) t).1

/-- Every segment of the chain `a → rs → t`, the closing segment to `t`
included, has Dijkstra cost at most `L_max`. -/
def chainOK (gc : GraphContainer) (lmax : ℚ) (a : String) (rs : List String) (t : String) : Bool :=
  preOK gc lmax a rs && decide ((gc.sp (lastOf a rs) t).1 ≤ lmax)

/-- The tolerance `1e-5` of `Solution._interpret_variables`. -/
def tol : ℚ := 1e-5

/-- The name under which `Solution._interpret_variables` sees a variable
(`self.formulation.cplex.variables.get_names(idx)`).  Variables created
without an explicit name receive a CPLEX default name; no default name
starts with `"y_"`, so the empty string is an adequate stand-in for the
prefix test and the claims never depend on its other characters. -/
def seenName (v : CVar) : String :=
  v.name.getD ""

/-- Embedding of the loop of `Solution._interpret_variables` for a
formulation with `read_from_file=False`: scan the variables paired with
their solver values in index order; a value above `1e-5` marks the
variable as chosen; a chosen variable whose name starts with `"y_"` is
recorded as a repeater node (name with the prefix stripped), every other
chosen variable is resolved through `varmap` (the `vm` field; absent
entries cannot occur for variables of the two formulations).  Returns
`(x_variables_chosen, repeater_nodes_chosen)`. -/
def interpretVariables : List (CVar × ℚ) → List VMapEntry × List String
  | [] => ([], [])
  | (v, val) :: rest =>
    let acc := interpretVariables rest
    if val > tol then
      if (seenName v).startsWith "y_" then
        (acc.1, (seenName v).drop 2 :: acc.2)
      else
        match v.vm with
        | some e => (e :: acc.1, acc.2)
        | none => (acc.1, acc.2)
    else acc

/-- `overall_data['num_reps'] = len(repeater_nodes_chosen)`. -/
def numReps (l : List (CVar × ℚ)) : ℕ :=
  (interpretVariables l).2.length

/-- The predicate a single iteration of the inner loop of
`Formulation._check_if_feasible` tests: the edge is incident to the end
node and its `'length'` is at most `L_max`. -/
def feasibleEdgeFor (lmax : ℚ) (v : String) (e : String × String × ℚ) : Bool :=
  (decide (e.1 = v) || decide (e.2.1 = v)) && decide (e.2.2 ≤ lmax)

/-- The end node `v` has at least one incident edge with length at most
`L_max` (the for-loop of `_check_if_feasible` reaches its `break`). -/
def hasFeasibleEdge (gc : GraphContainer) (lmax : ℚ) (v : String) : Bool :=
  gc.edges.any (feasibleEdgeFor lmax v)

/-- Whether an `Except` result is an error (a raised `ValueError`). -/
def isError {α : Type} : Except String α → Bool
  | .error _ => true
  | .ok _ => false

/-- Embedding of `Formulation._check_if_feasible`: raise when
`L_max < 0`; otherwise scan the end nodes in order and raise at the
first one none of whose incident edges has length at most `L_max`.  The
check reads the graph and modifies nothing. -/
def checkIfFeasible (gc : GraphContainer) (lmax : ℚ) : Except String Unit :=
  if lmax < 0 then .error "L_max must be a positive float."
  else
    match gc.endNodes.find? (fun v => !hasFeasibleEdge gc lmax v) with
    | some _ => .error "No feasible solution exists!"
    | none => .ok ()

/-- The parameter-validation part of `Formulation.__init__`, in source
order: reject `N_max < 1`, clamp `N_max` to the number of repeater
nodes, run the `L_max` feasibility pre-check, reject `D < 0`, clamp `D`
to the number of unique pairs, reject `K` outside
`[1, num_repeater_nodes + 1]`, reject `alpha < 0`, and store the
resulting parameter set.  Inputs are integers (respectively rationals)
exactly where Python receives ints (respectively floats). -/
def initFormulation (gc : GraphContainer) (nmax : ℤ) (lmax : ℚ) (d : ℤ) (k : ℤ)
    (alpha : ℚ) : Except String Params :=
  if nmax < 1 then .error "N_max must be a non-negative integer."
  else
    let nmax' : ℤ := if nmax > (gc.numRepeaterNodes : ℤ) then (gc.numRepeaterNodes : ℤ) else nmax
    match checkIfFeasible gc lmax with
    | .error m => .error m
    | .ok _ =>
      if d < 0 then .error "D must be a positive integer."
      else
        let d' : ℤ := if d > (gc.numUniquePairs : ℤ) then (gc.numUniquePairs : ℤ) else d
        if k < 1 ∨ k > (gc.numRepeaterNodes : ℤ) + 1 then
          .error "K must be a positive integer that cannot exceed the total number of repeaters plus one."
        else if alpha < 0 then .error "alpha must be a non-negative float"
        else .ok ⟨nmax'.toNat, lmax, d'.toNat, k.toNat, alpha⟩

/-- The objective coefficient the specification claims for a variable:
1 for a repeater variable (no `varmap` entry), `alpha` times the
recorded path cost for a link or path variable. -/
def claimedObj (p : Params) (v : CVar) : ℚ :=
  match v.vm with
  | none => 1
  | some e => p.alpha * e.cost

/-- Concrete test graph: end nodes `A`, `B`; candidate repeater nodes
`R1`, `R2`; short edges `A-R1` and `R1-B`, a longer direct edge `A-B`,
and long edges to `R2`. -/
def wcost (a b : String) : ℚ :=
  if (a = "A" ∧ b = "R1") ∨ (a = "R1" ∧ b = "A") then 1
  else if (a = "R1" ∧ b = "B") ∨ (a = "B" ∧ b = "R1") then 1
  else if (a = "A" ∧ b = "B") ∨ (a = "B" ∧ b = "A") then 3
  else 100

/-- Concrete graph container for the test graph; the shortest-path
oracle returns the two-node path `[a, b]` with cost `wcost a b`, and
every node is a descendant of every other node. -/
def gcW : GraphContainer :=
  ⟨["A", "B"], ["R1", "R2"],
   [("A", "R1", 1), ("R1", "B", 1), ("A", "B", 3), ("A", "R2", 100), ("R2", "B", 100)],
   fun a b => (wcost a b, [a, b]),
   fun a b => decide (a ≠ b)⟩

/-- Concrete parameters for the test graph: `N_max = 1`, `L_max = 2`,
`D = 1`, `K = 1`, `alpha = 1`. -/
def pW : Params := ⟨1, 2, 1, 1, 1⟩

/-- The unique end-node pair of the test graph. -/
def qW : String × String := ("A", "B")

/-- The repeater variable `y_R1` of the test graph. -/
def vW : CVar := ⟨some ("y_" ++ "R1"), 1, 1, 'B', [(linkXYConName "R1", -(1 : ℚ))], none⟩

/-- The elementary-link variable `x(A,B)_A,R1#1` of the test graph. -/
def vXW : CVar :=
  ⟨some (xVarName qW "A" "R1" 1), pW.alpha * 1, 1, 'B', linkColumn qW 1 "A" "R1",
   some (.link qW ["A", "R1"] 1)⟩

/-- The path tuple `(full_path, r_up, w_p)` generated for the test graph. -/
def tupW : List String × List String × ℚ := (["A", "R1", "B"], ["R1"], 2)

/-- The path variable of the test graph for the tuple `tupW`. -/
def vPW : CVar :=
  ⟨none, pW.alpha * 2, 1, 'B',
   [(pairConName qW, 1), (linkConName "R1", 1), (ndConName qW "R1", 1)],
   some (.pathv qW ["A", "R1", "B"] ["R1"] 2)⟩

theorem str_append_left_cancel {s t₁ t₂ : String} (h : s ++ t₁ = s ++ t₂) : t₁ = t₂ := by
  have hd := congrArg String.data h
  rw [String.data_append, String.data_append] at hd
  exact String.ext (List.append_cancel_left hd)

theorem ne_of_take2 {s₁ s₂ : String} (t₁ t₂ : String) (h₁ : 2 ≤ s₁.data.length)
    (h₂ : 2 ≤ s₂.data.length) (hne : s₁.data.take 2 ≠ s₂.data.take 2) :
    s₁ ++ t₁ ≠ s₂ ++ t₂ := by
  intro h
  apply hne
  have hd := congrArg String.data h
  rw [String.data_append, String.data_append] at hd
  have ht : (s₁.data ++ t₁.data).take 2 = (s₂.data ++ t₂.data).take 2 := by rw [hd]
  rwa [List.take_append_of_le_length h₁, List.take_append_of_le_length h₂] at ht

/-- Claim C1: for every formulation constructed without `read_from_file`
(both the link-based and the path-based model), the objective sense is
minimization, every repeater variable has objective coefficient 1, every
elementary-link or path variable has objective coefficient `alpha` times
the cost recorded for it in `varmap`, and for `alpha = 0` every
non-repeater variable has objective coefficient 0, so only the number of
repeaters is minimized. -/
theorem c1_objective (gc : GraphContainer) (p : Params) (v : CVar)
    (hv : v ∈ (buildLinkBased gc p).vars ∨ v ∈ (buildPathBased gc p).vars) :
    (buildLinkBased gc p).objSense = ObjSense.minimize ∧
    (buildPathBased gc p).objSense = ObjSense.minimize ∧
    v.obj = claimedObj p v ∧
    (p.alpha = 0 → v.vm ≠ none → v.obj = 0) := by
  have main : v.obj = claimedObj p v := by
    rcases hv with hv | hv
    · simp only [buildLinkBased] at hv
      rcases List.mem_append.mp hv with h | h
      · simp only [linkYVars, List.mem_map] at h
        obtain ⟨u, -, rfl⟩ := h
        rfl
      · simp only [linkXVars, List.mem_flatMap] at h
        obtain ⟨q, -, i, -, j, -, h⟩ := h
        split at h
        · simp at h
        · split at h
          · obtain ⟨k, -, rfl⟩ := List.mem_map.mp h
            rfl
          · simp at h
    · simp only [buildPathBased] at hv
      rcases List.mem_append.mp hv with h | h
      · simp only [pathYVars, List.mem_map] at h
        obtain ⟨u, -, rfl⟩ := h
        rfl
      · simp only [pathXVars, List.mem_flatMap] at h
        obtain ⟨q, -, h⟩ := h
        obtain ⟨tup, -, rfl⟩ := List.mem_map.mp h
        rfl
  refine ⟨rfl, rfl, main, fun ha hvm => ?_⟩
  rw [main]
  cases hv' : v.vm with
  | none => exact absurd hv' hvm
  | some e => simp [claimedObj, hv', ha]

theorem c1_objective_witness :
    (buildLinkBased gcW pW).objSense = ObjSense.minimize ∧
    (buildPathBased gcW pW).objSense = ObjSense.minimize ∧
    vW.obj = claimedObj pW vW ∧
    (pW.alpha = 0 → vW.vm ≠ none → vW.obj = 0) :=
  c1_objective gcW pW vW (Or.inl (by decide))

/-- Claim C2: in the link-based formulation, for every unique pair `q`,
every ordered candidate pair `(i, j)` with `i` in the repeater nodes
plus the source, `j` in the repeater nodes plus the sink and `i ≠ j`,
and every `k` in `range(1, K + 1)`, an elementary-link variable named
`x(q)_i,j#k` mapped in `varmap` to the Dijkstra shortest path from `i`
to `j` and its cost exists if and only if that cost is at most `L_max`;
moreover every link `varmap` entry of the model records a Dijkstra
result for some candidate pair with cost at most `L_max`, and the
constraint rows are independent of `L_max` (the cutoff replaces an
explicit `L_max` row). -/
theorem c2_link_variable (gc : GraphContainer) (p : Params)
    (q : String × String) (i j : String) (k : ℕ)
    (hq : q ∈ gc.uniqueEndNodePairs)
    (hi : i ∈ gc.possibleRepNodes ++ [q.1])
    (hj : j ∈ gc.possibleRepNodes ++ [q.2])
    (hij : i ≠ j) (hk : k ∈ List.range' 1 p.K) :
    ((∃ v ∈ (buildLinkBased gc p).vars,
        v.name = some (xVarName q i j k) ∧
        v.vm = some (VMapEntry.link q (gc.sp i j).2 (gc.sp i j).1))
      ↔ (gc.sp i j).1 ≤ p.Lmax) ∧
    (∀ v ∈ (buildLinkBased gc p).vars, ∀ q' pth c,
        v.vm = some (VMapEntry.link q' pth c) →
        c ≤ p.Lmax ∧ q' ∈ gc.uniqueEndNodePairs ∧
          ∃ i' j', i' ≠ j' ∧ i' ∈ gc.possibleRepNodes ++ [q'.1] ∧
            j' ∈ gc.possibleRepNodes ++ [q'.2] ∧ (c, pth) = gc.sp i' j') ∧
    (∀ L', linkConstraints gc { p with Lmax := L' } = linkConstraints gc p) := by
  refine ⟨⟨?_, ?_⟩, ?_, fun _ => rfl⟩
  · rintro ⟨v, hvmem, hname, hvm⟩
    simp only [buildLinkBased] at hvmem
    rcases List.mem_append.mp hvmem with h | h
    · simp only [linkYVars, List.mem_map] at h
      obtain ⟨u, -, rfl⟩ := h
      simp at hvm
    · simp only [linkXVars, List.mem_flatMap] at h
      obtain ⟨q', -, i', -, j', -, h⟩ := h
      by_cases hij' : i' = j'
      · simp [hij'] at h
      · by_cases hc : (gc.sp i' j').1 ≤ p.Lmax
        · simp only [if_neg hij', if_pos hc, List.mem_map] at h
          obtain ⟨k', -, rfl⟩ := h
          simp only [Option.some.injEq, VMapEntry.link.injEq] at hvm
          obtain ⟨-, -, hcost⟩ := hvm
          rwa [← hcost]
        · simp [hij', hc] at h
  · intro hle
    refine ⟨⟨some (xVarName q i j k), p.alpha * (gc.sp i j).1, 1, 'B', linkColumn q k i j,
      some (VMapEntry.link q (gc.sp i j).2 (gc.sp i j).1)⟩, ?_, rfl, rfl⟩
    simp only [buildLinkBased, List.mem_append, linkXVars, List.mem_flatMap]
    right
    refine ⟨q, hq, i, List.mem_append.mp hi, j, List.mem_append.mp hj, ?_⟩
    simp only [if_neg hij, if_pos hle, List.mem_map]
    exact ⟨k, hk, rfl⟩
  · intro v hvmem q' pth c hvm
    simp only [buildLinkBased] at hvmem
    rcases List.mem_append.mp hvmem with h | h
    · simp only [linkYVars, List.mem_map] at h
      obtain ⟨u, -, rfl⟩ := h
      simp at hvm
    · simp only [linkXVars, List.mem_flatMap] at h
      obtain ⟨q'', hq'', i', hi', j', hj', h⟩ := h
      by_cases hij' : i' = j'
      · simp [hij'] at h
      · by_cases hc : (gc.sp i' j').1 ≤ p.Lmax
        · simp only [if_neg hij', if_pos hc, List.mem_map] at h
          obtain ⟨k', -, rfl⟩ := h
          simp only [Option.some.injEq, VMapEntry.link.injEq] at hvm
          obtain ⟨hqeq, hpath, hcost⟩ := hvm
          subst hqeq
          refine ⟨hcost ▸ hc, hq'', i', j', hij', hi', hj', ?_⟩
          rw [← hcost, ← hpath]
        · simp [hij', hc] at h

theorem c2_link_variable_witness :
    ((∃ v ∈ (buildLinkBased gcW pW).vars,
        v.name = some (xVarName qW "A" "R1" 1) ∧
        v.vm = some (VMapEntry.link qW (gcW.sp "A" "R1").2 (gcW.sp "A" "R1").1))
      ↔ (gcW.sp "A" "R1").1 ≤ pW.Lmax) ∧
    (∀ v ∈ (buildLinkBased gcW pW).vars, ∀ q' pth c,
        v.vm = some (VMapEntry.link q' pth c) →
        c ≤ pW.Lmax ∧ q' ∈ gcW.uniqueEndNodePairs ∧
          ∃ i' j', i' ≠ j' ∧ i' ∈ gcW.possibleRepNodes ++ [q'.1] ∧
            j' ∈ gcW.possibleRepNodes ++ [q'.2] ∧ (c, pth) = gcW.sp i' j') ∧
    (∀ L', linkConstraints gcW { pW with Lmax := L' } = linkConstraints gcW pW) :=
  c2_link_variable gcW pW qW "A" "R1" 1 (by decide) (by decide) (by decide) (by decide)
    (by decide)

theorem linkXY_inj {u v : String} : linkXYConName u = linkXYConName v ↔ u = v :=
  ⟨fun h => str_append_left_cancel h, fun h => by rw [h]⟩

theorem linkCon_inj {u v : String} : linkConName u = linkConName v ↔ u = v :=
  ⟨fun h => str_append_left_cancel h, fun h => by rw [h]⟩

theorem disLink_inj {q : String × String} {u v : String} :
    disLinkConName q u = disLinkConName q v ↔ u = v := by
  constructor
  · intro h
    exact str_append_left_cancel (str_append_left_cancel (str_append_left_cancel h))
  · intro h
    rw [h]

theorem ndCon_inj {q : String × String} {u v : String} :
    ndConName q u = ndConName q v ↔ u = v := by
  constructor
  · intro h
    exact str_append_left_cancel (str_append_left_cancel (str_append_left_cancel h))
  · intro h
    rw [h]

theorem linkXY_ne_source (u : String) (q : String × String) (k : ℕ) :
    linkXYConName u ≠ sourceConName q k :=
  ne_of_take2 _ _ (by decide) (by decide) (by decide)

theorem linkXY_ne_sink (u : String) (q : String × String) (k : ℕ) :
    linkXYConName u ≠ sinkConName q k :=
  ne_of_take2 _ _ (by decide) (by decide) (by decide)

theorem linkXY_ne_st (u : String) (q : String × String) :
    linkXYConName u ≠ stConName q :=
  ne_of_take2 _ _ (by decide) (by decide) (by decide)

theorem linkXY_ne_flow (u : String) (q : String × String) (v : String) (k : ℕ) :
    linkXYConName u ≠ flowConName q v k :=
  ne_of_take2 _ _ (by decide) (by decide) (by decide)

theorem linkXY_ne_maxRep (u : String) (q : String × String) (k : ℕ) :
    linkXYConName u ≠ maxRepConName q k :=
  ne_of_take2 _ _ (by decide) (by decide) (by decide)

theorem linkXY_ne_disLink (u : String) (q : String × String) (v : String) :
    linkXYConName u ≠ disLinkConName q v :=
  ne_of_take2 _ _ (by decide) (by decide) (by decide)

theorem disLink_ne_source (q : String × String) (u : String) (q' : String × String) (k : ℕ) :
    disLinkConName q u ≠ sourceConName q' k :=
  ne_of_take2 _ _ (by decide) (by decide) (by decide)

theorem disLink_ne_sink (q : String × String) (u : String) (q' : String × String) (k : ℕ) :
    disLinkConName q u ≠ sinkConName q' k :=
  ne_of_take2 _ _ (by decide) (by decide) (by decide)

theorem disLink_ne_st (q : String × String) (u : String) (q' : String × String) :
    disLinkConName q u ≠ stConName q' :=
  ne_of_take2 _ _ (by decide) (by decide) (by decide)

theorem disLink_ne_flow (q : String × String) (u : String) (q' : String × String)
    (v : String) (k : ℕ) : disLinkConName q u ≠ flowConName q' v k :=
  ne_of_take2 _ _ (by decide) (by decide) (by decide)

theorem disLink_ne_maxRep (q : String × String) (u : String) (q' : String × String) (k : ℕ) :
    disLinkConName q u ≠ maxRepConName q' k :=
  ne_of_take2 _ _ (by decide) (by decide) (by decide)

theorem linkCon_ne_pairCon (u : String) (q : String × String) :
    linkConName u ≠ pairConName q :=
  ne_of_take2 _ _ (by decide) (by decide) (by decide)

theorem ndCon_ne_pairCon (q : String × String) (u : String) (q' : String × String) :
    ndConName q u ≠ pairConName q' :=
  ne_of_take2 _ _ (by decide) (by decide) (by decide)

theorem ndCon_ne_linkCon (q : String × String) (u v : String) :
    ndConName q u ≠ linkConName v :=
  ne_of_take2 _ _ (by decide) (by decide) (by decide)

/-- Claim C4: in the link-based formulation, for every unique pair `q`
and every `k` in `range(1, K + 1)`, the constraint matrix contains an
equality row `SourceCon` with right-hand side 1, an equality row
`FlowCon` with right-hand side 0 per repeater node, an equality row
`SinkCon` with right-hand side -1, and an inequality row `MaxRepCon`
with right-hand side `N_max`; and the column of every elementary-link
variable `x_{ij}^{q,k}` contributes +1 to the source row when `i` is
the source, +1 (respectively -1) to the flow row of `i` (respectively
`j`) when it is a repeater node, -1 to the sink row when `j` is the
sink, and +1 to the maximum-repeater row when `j` is a repeater node. -/
theorem c4_flow_rows (gc : GraphContainer) (p : Params) (q : String × String) (k : ℕ)
    (hq : q ∈ gc.uniqueEndNodePairs) (hk : k ∈ List.range' 1 p.K) :
    (⟨sourceConName q k, .eq, 1⟩ : Row) ∈ (buildLinkBased gc p).rows ∧
    (∀ u ∈ gc.possibleRepNodes,
      (⟨flowConName q u k, .eq, 0⟩ : Row) ∈ (buildLinkBased gc p).rows) ∧
    (⟨sinkConName q k, .eq, -1⟩ : Row) ∈ (buildLinkBased gc p).rows ∧
    (⟨maxRepConName q k, .le, (p.Nmax : ℚ)⟩ : Row) ∈ (buildLinkBased gc p).rows ∧
    (∀ i j : String,
      (i = q.1 → (sourceConName q k, (1 : ℚ)) ∈ linkColumn q k i j) ∧
      (i ≠ q.1 → (flowConName q i k, (1 : ℚ)) ∈ linkColumn q k i j) ∧
      (j = q.2 → (sinkConName q k, (-1 : ℚ)) ∈ linkColumn q k i j) ∧
      (j ≠ q.2 → (flowConName q j k, (-1 : ℚ)) ∈ linkColumn q k i j ∧
        (maxRepConName q k, (1 : ℚ)) ∈ linkColumn q k i j)) := by
  refine ⟨?_, ?_, ?_, ?_, ?_⟩
  · exact List.mem_append_right _ (List.mem_flatMap.mpr ⟨q, hq,
      List.mem_append_right _ (List.mem_flatMap.mpr ⟨k, hk,
        List.mem_append_left _ (List.mem_append_left _ (List.mem_singleton.mpr rfl))⟩)⟩)
  · intro u hu
    exact List.mem_append_right _ (List.mem_flatMap.mpr ⟨q, hq,
      List.mem_append_right _ (List.mem_flatMap.mpr ⟨k, hk,
        List.mem_append_left _ (List.mem_append_right _ (List.mem_map_of_mem _ hu))⟩)⟩)
  · exact List.mem_append_right _ (List.mem_flatMap.mpr ⟨q, hq,
      List.mem_append_right _ (List.mem_flatMap.mpr ⟨k, hk,
        List.mem_append_right _ (by simp)⟩)⟩)
  · exact List.mem_append_right _ (List.mem_flatMap.mpr ⟨q, hq,
      List.mem_append_right _ (List.mem_flatMap.mpr ⟨k, hk,
        List.mem_append_right _ (by simp)⟩)⟩)
  · intro i j
    by_cases hi : i = q.1 <;> by_cases hj : j = q.2 <;>
      simp [linkColumn, hi, hj]

theorem c4_flow_rows_witness :
    (⟨sourceConName qW 1, .eq, 1⟩ : Row) ∈ (buildLinkBased gcW pW).rows ∧
    (∀ u ∈ gcW.possibleRepNodes,
      (⟨flowConName qW u 1, .eq, 0⟩ : Row) ∈ (buildLinkBased gcW pW).rows) ∧
    (⟨sinkConName qW 1, .eq, -1⟩ : Row) ∈ (buildLinkBased gcW pW).rows ∧
    (⟨maxRepConName qW 1, .le, (pW.Nmax : ℚ)⟩ : Row) ∈ (buildLinkBased gcW pW).rows ∧
    (∀ i j : String,
      (i = qW.1 → (sourceConName qW 1, (1 : ℚ)) ∈ linkColumn qW 1 i j) ∧
      (i ≠ qW.1 → (flowConName qW i 1, (1 : ℚ)) ∈ linkColumn qW 1 i j) ∧
      (j = qW.2 → (sinkConName qW 1, (-1 : ℚ)) ∈ linkColumn qW 1 i j) ∧
      (j ≠ qW.2 → (flowConName qW j 1, (-1 : ℚ)) ∈ linkColumn qW 1 i j ∧
        (maxRepConName qW 1, (1 : ℚ)) ∈ linkColumn qW 1 i j)) :=
  c4_flow_rows gcW pW qW 1 (by decide) (by decide)

/-- Claim C5: per-repeater capacity is a linking row per repeater node
`u` of sense less-or-equal with right-hand side 0 in both formulations;
the repeater variable `y_u` has the single column entry `-D` in that
row; a link-based elementary-link column contributes to the linking row
of `u` exactly when `u` is the head `j` of the arc and `j` is a
repeater node, and then with coefficient +1; and a path variable
contributes to the linking row of `u` exactly when `u` is in its
`r_up`, and then with coefficient +1. -/
theorem c5_capacity_linking (gc : GraphContainer) (p : Params) (u : String)
    (hu : u ∈ gc.possibleRepNodes) :
    (⟨linkXYConName u, .le, 0⟩ : Row) ∈ (buildLinkBased gc p).rows ∧
    (⟨linkConName u, .le, 0⟩ : Row) ∈ (buildPathBased gc p).rows ∧
    (∃ v ∈ (buildLinkBased gc p).vars, v.name = some ("y_" ++ u) ∧ v.vm = none ∧
      v.column = [(linkXYConName u, -(p.D : ℚ))]) ∧
    (∃ v ∈ (buildPathBased gc p).vars, v.name = some ("y_" ++ u) ∧ v.vm = none ∧
      v.column = [(linkConName u, -(p.D : ℚ))]) ∧
    (∀ (q : String × String) (k : ℕ) (i j : String) (c : ℚ),
      (linkXYConName u, c) ∈ linkColumn q k i j ↔ (u = j ∧ j ≠ q.2 ∧ c = 1)) ∧
    (∀ v ∈ (buildPathBased gc p).vars, ∀ q fp r w,
      v.vm = some (VMapEntry.pathv q fp r w) →
      ∀ c : ℚ, ((linkConName u, c) ∈ v.column ↔ (u ∈ r ∧ c = 1))) := by
  refine ⟨?_, ?_, ?_, ?_, ?_, ?_⟩
  · exact List.mem_append_left _ (List.mem_map_of_mem _ hu)
  · exact List.mem_append_left _ (List.mem_append_right _ (List.mem_map_of_mem _ hu))
  · exact ⟨⟨some ("y_" ++ u), 1, 1, 'B', [(linkXYConName u, -(p.D : ℚ))], none⟩,
      List.mem_append_left _ (List.mem_map_of_mem _ hu), rfl, rfl, rfl⟩
  · exact ⟨⟨some ("y_" ++ u), 1, 1, 'B', [(linkConName u, -(p.D : ℚ))], none⟩,
      List.mem_append_left _ (List.mem_map_of_mem _ hu), rfl, rfl, rfl⟩
  · intro q k i j c
    by_cases hi : i = q.1 <;> by_cases hj : j = q.2 <;>
      simp [linkColumn, hi, hj, linkXY_ne_source, linkXY_ne_sink, linkXY_ne_st,
        linkXY_ne_flow, linkXY_ne_maxRep, linkXY_ne_disLink, linkXY_inj]
  · intro v hv q fp r w hvm c
    simp only [buildPathBased] at hv
    rcases List.mem_append.mp hv with h | h
    · simp only [pathYVars, List.mem_map] at h
      obtain ⟨u', -, rfl⟩ := h
      simp at hvm
    · simp only [pathXVars, List.mem_flatMap] at h
      obtain ⟨q', -, h⟩ := h
      obtain ⟨tup, -, rfl⟩ := List.mem_map.mp h
      simp only [Option.some.injEq, VMapEntry.pathv.injEq] at hvm
      obtain ⟨-, -, hr, -⟩ := hvm
      subst hr
      simp only [List.mem_append, List.mem_cons, List.mem_map, List.not_mem_nil,
        Prod.mk.injEq, or_false]
      constructor
      · rintro ((⟨hn, -⟩ | ⟨a, ha, hn, hc⟩) | ⟨a, ha, hn, hc⟩)
        · exact absurd hn (linkCon_ne_pairCon u q')
        · rw [linkCon_inj.mp hn] at ha
          exact ⟨ha, hc.symm⟩
        · exact absurd hn (ndCon_ne_linkCon q' a u)
      · rintro ⟨hur, rfl⟩
        exact Or.inl (Or.inr ⟨u, hur, rfl, rfl⟩)

theorem c5_capacity_linking_witness :
    (⟨linkXYConName "R1", .le, 0⟩ : Row) ∈ (buildLinkBased gcW pW).rows ∧
    (⟨linkConName "R1", .le, 0⟩ : Row) ∈ (buildPathBased gcW pW).rows ∧
    (∃ v ∈ (buildLinkBased gcW pW).vars, v.name = some ("y_" ++ "R1") ∧ v.vm = none ∧
      v.column = [(linkXYConName "R1", -(pW.D : ℚ))]) ∧
    (∃ v ∈ (buildPathBased gcW pW).vars, v.name = some ("y_" ++ "R1") ∧ v.vm = none ∧
      v.column = [(linkConName "R1", -(pW.D : ℚ))]) ∧
    (∀ (q : String × String) (k : ℕ) (i j : String) (c : ℚ),
      (linkXYConName "R1", c) ∈ linkColumn q k i j ↔ ("R1" = j ∧ j ≠ q.2 ∧ c = 1)) ∧
    (∀ v ∈ (buildPathBased gcW pW).vars, ∀ q fp r w,
      v.vm = some (VMapEntry.pathv q fp r w) →
      ∀ c : ℚ, ((linkConName "R1", c) ∈ v.column ↔ ("R1" ∈ r ∧ c = 1))) :=
  c5_capacity_linking gcW pW "R1" (by decide)

/-- Claim C6: path-disjointness across the `K` paths of a pair `q` is
one less-or-equal row with right-hand side 1 per node `u` in the
repeater nodes plus the source of `q`, in both formulations; a
link-based elementary-link column contributes to the disjointness row
of `(q, u)` exactly when `u` is the head `j` of the arc and `j` is a
repeater node, and then with coefficient 1; a path variable of pair `q`
contributes to the disjointness row of `(q, u)` exactly when `u` is in
its `r_up`, and then with coefficient 1; and in the path-based
formulation each pair additionally has an equality row `PairCon` with
right-hand side `K` to which every path variable of the pair
contributes coefficient 1. -/
theorem c6_disjointness (gc : GraphContainer) (p : Params) (q : String × String)
    (u : String) (hq : q ∈ gc.uniqueEndNodePairs)
    (hu : u ∈ gc.possibleRepNodes ++ [q.1]) :
    (⟨disLinkConName q u, .le, 1⟩ : Row) ∈ (buildLinkBased gc p).rows ∧
    (⟨ndConName q u, .le, 1⟩ : Row) ∈ (buildPathBased gc p).rows ∧
    (⟨pairConName q, .eq, (p.K : ℚ)⟩ : Row) ∈ (buildPathBased gc p).rows ∧
    (∀ (k : ℕ) (i j : String) (c : ℚ),
      (disLinkConName q u, c) ∈ linkColumn q k i j ↔ (u = j ∧ j ≠ q.2 ∧ c = 1)) ∧
    (∀ v ∈ (buildPathBased gc p).vars, ∀ q' fp r w,
      v.vm = some (VMapEntry.pathv q' fp r w) →
      ((pairConName q', (1 : ℚ)) ∈ v.column ∧
        ∀ c : ℚ, ((ndConName q' u, c) ∈ v.column ↔ (u ∈ r ∧ c = 1)))) := by
  refine ⟨?_, ?_, ?_, ?_, ?_⟩
  · exact List.mem_append_right _ (List.mem_flatMap.mpr ⟨q, hq,
      List.mem_append_left _ (List.mem_append_right _ (List.mem_map_of_mem _ hu))⟩)
  · exact List.mem_append_right _ (List.mem_flatMap.mpr ⟨q, hq, List.mem_map_of_mem _ hu⟩)
  · exact List.mem_append_left _ (List.mem_append_left _ (List.mem_map_of_mem _ hq))
  · intro k i j c
    by_cases hi : i = q.1 <;> by_cases hj : j = q.2 <;>
      simp [linkColumn, hi, hj, disLink_ne_source, disLink_ne_sink, disLink_ne_st,
        disLink_ne_flow, disLink_ne_maxRep, fun v => (linkXY_ne_disLink v q u).symm,
        disLink_inj]
  · intro v hv q' fp r w hvm
    simp only [buildPathBased] at hv
    rcases List.mem_append.mp hv with h | h
    · simp only [pathYVars, List.mem_map] at h
      obtain ⟨u', -, rfl⟩ := h
      simp at hvm
    · simp only [pathXVars, List.mem_flatMap] at h
      obtain ⟨q'', -, h⟩ := h
      obtain ⟨tup, -, rfl⟩ := List.mem_map.mp h
      simp only [Option.some.injEq, VMapEntry.pathv.injEq] at hvm
      obtain ⟨hq'', -, hr, -⟩ := hvm
      subst hq''
      subst hr
      constructor
      · exact List.mem_append_left _ (List.mem_append_left _ (List.mem_singleton.mpr rfl))
      · intro c
        simp only [List.mem_append, List.mem_cons, List.mem_map, List.not_mem_nil,
          Prod.mk.injEq, or_false]
        constructor
        · rintro ((⟨hn, -⟩ | ⟨a, ha, hn, hc⟩) | ⟨a, ha, hn, hc⟩)
          · exact absurd hn (ndCon_ne_pairCon _ u _)
          · exact absurd hn (ndCon_ne_linkCon _ u a).symm
          · rw [ndCon_inj.mp hn] at ha
            exact ⟨ha, hc.symm⟩
        · rintro ⟨hur, rfl⟩
          exact Or.inr ⟨u, hur, rfl, rfl⟩

theorem c6_disjointness_witness :
    (⟨disLinkConName qW "R1", .le, 1⟩ : Row) ∈ (buildLinkBased gcW pW).rows ∧
    (⟨ndConName qW "R1", .le, 1⟩ : Row) ∈ (buildPathBased gcW pW).rows ∧
    (⟨pairConName qW, .eq, (pW.K : ℚ)⟩ : Row) ∈ (buildPathBased gcW pW).rows ∧
    (∀ (k : ℕ) (i j : String) (c : ℚ),
      (disLinkConName qW "R1", c) ∈ linkColumn qW k i j ↔ ("R1" = j ∧ j ≠ qW.2 ∧ c = 1)) ∧
    (∀ v ∈ (buildPathBased gcW pW).vars, ∀ q' fp r w,
      v.vm = some (VMapEntry.pathv q' fp r w) →
      ((pairConName q', (1 : ℚ)) ∈ v.column ∧
        ∀ c : ℚ, ((ndConName q' "R1", c) ∈ v.column ↔ ("R1" ∈ r ∧ c = 1)))) :=
  c6_disjointness gcW pW qW "R1" (by decide) (by decide)

theorem interp_reps_eq (l : List (CVar × ℚ)) :
    (interpretVariables l).2 = l.filterMap (fun vv =>
      if vv.2 > tol ∧ (seenName vv.1).startsWith "y_" then some ((seenName vv.1).drop 2)
      else none) := by
  induction l with
  | nil => rfl
  | cons hd tl ih =>
    obtain ⟨v, val⟩ := hd
    by_cases h1 : val > tol
    · by_cases h2 : (seenName v).startsWith "y_"
      · simp [interpretVariables, h1, h2, ih]
      · cases hvm : v.vm <;> simp [interpretVariables, h1, h2, hvm, ih]
    · simp [interpretVariables, h1, ih]

theorem interp_xs_eq (l : List (CVar × ℚ)) :
    (interpretVariables l).1 = l.filterMap (fun vv =>
      if vv.2 > tol ∧ ¬ (seenName vv.1).startsWith "y_" then vv.1.vm else none) := by
  induction l with
  | nil => rfl
  | cons hd tl ih =>
    obtain ⟨v, val⟩ := hd
    by_cases h1 : val > tol
    · by_cases h2 : (seenName v).startsWith "y_"
      · simp [interpretVariables, h1, h2, ih]
      · cases hvm : v.vm <;> simp [interpretVariables, h1, h2, hvm, ih]
    · simp [interpretVariables, h1, ih]

/-- Claim C7: scanning the solver values of a formulation not read from
file, a variable with value above `1e-5` is recorded as a chosen
repeater node exactly when its name starts with `"y_"` (with the prefix
stripped), every other chosen variable is resolved through `varmap`
(the tuple recorded at variable creation), and `num_reps` equals the
number of chosen repeater variables. -/
theorem c7_interpret_variables (l : List (CVar × ℚ)) :
    (interpretVariables l).2 = l.filterMap (fun vv =>
      if vv.2 > tol ∧ (seenName vv.1).startsWith "y_" then some ((seenName vv.1).drop 2)
      else none) ∧
    (interpretVariables l).1 = l.filterMap (fun vv =>
      if vv.2 > tol ∧ ¬ (seenName vv.1).startsWith "y_" then vv.1.vm else none) ∧
    numReps l = (l.filterMap (fun vv =>
      if vv.2 > tol ∧ (seenName vv.1).startsWith "y_" then some ((seenName vv.1).drop 2)
      else none)).length :=
  ⟨interp_reps_eq l, interp_xs_eq l, by simp only [numReps, interp_reps_eq l]⟩

theorem check_isError_eq (gc : GraphContainer) (lmax : ℚ) :
    isError (checkIfFeasible gc lmax)
      = (decide (lmax < 0) || gc.endNodes.any (fun v => !hasFeasibleEdge gc lmax v)) := by
  by_cases hl : lmax < 0
  · simp [checkIfFeasible, isError, hl]
  · simp only [checkIfFeasible, if_neg hl]
    cases hf : gc.endNodes.find? (fun v => !hasFeasibleEdge gc lmax v) with
    | none =>
      have hall := List.find?_eq_none.mp hf
      simp only [isError, hl, decide_False, Bool.false_or]
      exact (List.any_eq_false.mpr hall).symm
    | some v =>
      have hp := List.find?_some hf
      have hmem := List.mem_of_find?_eq_some hf
      simp only [isError, hl, decide_False, Bool.false_or]
      exact (List.any_eq_true.mpr ⟨v, hmem, hp⟩).symm

theorem init_isError_eq (gc : GraphContainer) (nmax : ℤ) (lmax : ℚ) (d k : ℤ) (alpha : ℚ) :
    isError (initFormulation gc nmax lmax d k alpha)
      = (decide (nmax < 1) || isError (checkIfFeasible gc lmax) || decide (d < 0)
         || decide (k < 1 ∨ k > (gc.numRepeaterNodes : ℤ) + 1) || decide (alpha < 0)) := by
  by_cases hn : nmax < 1
  · simp [initFormulation, hn, isError]
  · cases hcf : checkIfFeasible gc lmax with
    | error m => simp [initFormulation, hn, hcf, isError]
    | ok u =>
      by_cases hd0 : d < 0
      · simp [initFormulation, hn, hcf, hd0, isError]
      · by_cases hk0 : k < 1 ∨ k > (gc.numRepeaterNodes : ℤ) + 1
        · simp [initFormulation, hn, hcf, hd0, hk0, isError]
        · by_cases ha0 : alpha < 0 <;>
            simp [initFormulation, hn, hcf, hd0, hk0, ha0, isError]

/-- Claim C9: constructing a `Formulation` validates parameters
asymmetrically.  It raises exactly when `N_max < 1`, the `L_max`
feasibility pre-check raises, `D < 0`, `K < 1` or
`K > num_repeater_nodes + 1`, or `alpha < 0` (first equation; a negative
`L_max` always makes the pre-check raise, second equation); and a
non-raising construction stores the parameters with `N_max` clamped
down to the number of repeater nodes and `D` clamped down to the number
of unique end-node pairs (third equivalence). -/
theorem c9_init_validation (gc : GraphContainer) (nmax : ℤ) (lmax : ℚ) (d k : ℤ)
    (alpha : ℚ) (P : Params) :
    isError (initFormulation gc nmax lmax d k alpha)
      = (decide (nmax < 1) || isError (checkIfFeasible gc lmax) || decide (d < 0)
         || decide (k < 1 ∨ k > (gc.numRepeaterNodes : ℤ) + 1) || decide (alpha < 0)) ∧
    (!decide (lmax < 0) || isError (checkIfFeasible gc lmax)) = true ∧
    (initFormulation gc nmax lmax d k alpha = .ok P ↔
      (1 ≤ nmax ∧ checkIfFeasible gc lmax = .ok () ∧ 0 ≤ d ∧ 1 ≤ k ∧
        k ≤ (gc.numRepeaterNodes : ℤ) + 1 ∧ 0 ≤ alpha ∧
        P = ⟨(min nmax (gc.numRepeaterNodes : ℤ)).toNat, lmax,
             (min d (gc.numUniquePairs : ℤ)).toNat, k.toNat, alpha⟩)) := by
  refine ⟨init_isError_eq gc nmax lmax d k alpha, ?_, ?_⟩
  · by_cases hl : lmax < 0 <;> simp [checkIfFeasible, hl, isError]
  · by_cases hn : nmax < 1
    · have h1 : ¬ (1 : ℤ) ≤ nmax := by omega
      simp [initFormulation, hn, h1]
    · cases hcf : checkIfFeasible gc lmax with
      | error m => simp [initFormulation, hn, hcf]
      | ok u =>
        cases u
        by_cases hd0 : d < 0
        · have h2 : ¬ (0 : ℤ) ≤ d := by omega
          simp [initFormulation, hn, hcf, hd0, h2]
        · by_cases hk0 : k < 1 ∨ k > (gc.numRepeaterNodes : ℤ) + 1
          · have h3 : ¬ ((1 : ℤ) ≤ k ∧ k ≤ (gc.numRepeaterNodes : ℤ) + 1) := by omega
            simp only [initFormulation, if_neg hn, hcf, if_neg hd0, if_pos hk0]
            constructor
            · intro h
              simp at h
            · rintro ⟨-, -, -, hk1, hk2, -⟩
              exact absurd ⟨hk1, hk2⟩ h3
          · by_cases ha0 : alpha < 0
            · have h4 : ¬ (0 : ℚ) ≤ alpha := not_le.mpr ha0
              simp [initFormulation, hn, hcf, hd0, hk0, ha0, h4]
            · have hmin1 : (if nmax > (gc.numRepeaterNodes : ℤ) then (gc.numRepeaterNodes : ℤ)
                  else nmax) = min nmax (gc.numRepeaterNodes : ℤ) := by
                rw [min_def]
                split_ifs <;> omega
              have hmin2 : (if d > (gc.numUniquePairs : ℤ) then (gc.numUniquePairs : ℤ)
                  else d) = min d (gc.numUniquePairs : ℤ) := by
                rw [min_def]
                split_ifs <;> omega
              have h1 : (1 : ℤ) ≤ nmax := by omega
              have h2 : (0 : ℤ) ≤ d := by omega
              have h3 : (1 : ℤ) ≤ k ∧ k ≤ (gc.numRepeaterNodes : ℤ) + 1 := by
                push_neg at hk0
                omega
              have h4 : (0 : ℚ) ≤ alpha := not_lt.mp ha0
              simp only [initFormulation, if_neg hn, hcf, if_neg hd0, if_neg hk0,
                if_neg ha0, hmin1, hmin2, Except.ok.injEq]
              constructor
              · intro h
                exact ⟨h1, trivial, h2, h3.1, h3.2, h4, h.symm⟩
              · rintro ⟨-, -, -, -, -, -, hP⟩
                exact hP.symm

/-- Claim C10: the feasibility pre-check of `Formulation.__init__`
raises exactly when `L_max` is negative or some end node has no
incident edge of length at most `L_max` (first equation; the check is a
pure read of the graph), and whenever the pre-check raises the whole
construction raises, whatever the remaining parameters are (second
equation). -/
theorem c10_feasibility_check (gc : GraphContainer) (lmax : ℚ) (nmax d k : ℤ)
    (alpha : ℚ) :
    isError (checkIfFeasible gc lmax)
      = (decide (lmax < 0) || gc.endNodes.any (fun v => !hasFeasibleEdge gc lmax v)) ∧
    (!(isError (checkIfFeasible gc lmax))
      || isError (initFormulation gc nmax lmax d k alpha)) = true := by
  refine ⟨check_isError_eq gc lmax, ?_⟩
  rw [init_isError_eq]
  cases hcf : isError (checkIfFeasible gc lmax) <;> simp

theorem getLastD_append {α : Type} (l₁ l₂ : List α) (d : α) :
    (l₁ ++ l₂).getLastD d = l₂.getLastD (l₁.getLastD d) := by
  induction l₁ generalizing d with
  | nil => rfl
  | cons a l₁ ih => simp only [List.cons_append, List.getLastD_cons, ih]

theorem getLast?_eq_some_getLastD {α : Type} (l : List α) (d : α) (h : l ≠ []) :
    l.getLast? = some (l.getLastD d) := by
  induction l generalizing d with
  | nil => exact absurd rfl h
  | cons a l ih =>
    cases l with
    | nil => rfl
    | cons b l => simpa only [List.getLastD_cons] using ih a (by simp)

theorem lastOf_cons (a r : String) (rs : List String) :
    lastOf a (r :: rs) = lastOf r rs :=
  List.getLastD_cons a r rs

theorem lastOf_concat (a u : String) (rs : List String) :
    lastOf a (rs ++ [u]) = u :=
  List.getLastD_concat a u rs

theorem preTails_append (gc : GraphContainer) (a u : String) (rs : List String) :
    preTails gc a (rs ++ [u]) = preTails gc a rs ++ (gc.sp (lastOf a rs) u).2.tail := by
  induction rs generalizing a with
  | nil => simp [preTails, lastOf]
  | cons r rs ih =>
    simp only [List.cons_append, preTails, List.append_eq]
    rw [ih, lastOf_cons, List.append_assoc]

theorem preCost_append (gc : GraphContainer) (a u : String) (rs : List String) :
    preCost gc a (rs ++ [u]) = preCost gc a rs + (gc.sp (lastOf a rs) u).1 := by
  induction rs generalizing a with
  | nil => simp [preCost, lastOf]
  | cons r rs ih =>
    simp only [List.cons_append, preCost, List.append_eq]
    rw [ih, lastOf_cons]
    ring

theorem preOK_append (gc : GraphContainer) (lmax : ℚ) (a u : String) (rs : List String) :
    preOK gc lmax a (rs ++ [u])
      = (preOK gc lmax a rs && decide ((gc.sp (lastOf a rs) u).1 ≤ lmax)) := by
  induction rs generalizing a with
  | nil => simp [preOK, lastOf]
  | cons r rs ih =>
    simp only [List.cons_append, preOK, List.append_eq]
    rw [ih, lastOf_cons, Bool.and_assoc]

theorem chainNe_append (a u : String) (rs : List String) :
    chainNe a (rs ++ [u]) = (chainNe a rs && decide (lastOf a rs ≠ u)) := by
  induction rs generalizing a with
  | nil => simp [chainNe, lastOf]
  | cons r rs ih =>
    simp only [List.cons_append, chainNe, List.append_eq]
    rw [ih, lastOf_cons, Bool.and_assoc]

theorem sp_shape (gc : GraphContainer)
    (hwf : ∀ a b, ((gc.sp a b).2).head? = some a ∧ ((gc.sp a b).2).getLast? = some b)
    (a b : String) : ∃ t, (gc.sp a b).2 = a :: t := by
  have h := (hwf a b).1
  cases hsp : (gc.sp a b).2 with
  | nil => rw [hsp] at h; simp at h
  | cons x t =>
    rw [hsp] at h
    simp only [List.head?_cons, Option.some.injEq] at h
    exact ⟨t, by rw [h]⟩

theorem sp_tail_facts (gc : GraphContainer)
    (hwf : ∀ a b, ((gc.sp a b).2).head? = some a ∧ ((gc.sp a b).2).getLast? = some b)
    (a b : String) (hne : a ≠ b) :
    (gc.sp a b).2.tail ≠ [] ∧ (gc.sp a b).2.tail.getLast? = some b := by
  obtain ⟨t, ht⟩ := sp_shape gc hwf a b
  have hl := (hwf a b).2
  rw [ht] at hl ⊢
  simp only [List.tail_cons]
  cases t with
  | nil =>
    simp only [List.getLast?_singleton, Option.some.injEq] at hl
    exact absurd hl hne
  | cons x t' => exact ⟨by simp, hl⟩

theorem pathLast (gc : GraphContainer)
    (hwf : ∀ a b, ((gc.sp a b).2).head? = some a ∧ ((gc.sp a b).2).getLast? = some b)
    (s : String) (rs : List String) (hne : chainNe s rs = true) :
    (s :: preTails gc s rs).getLastD "" = lastOf s rs := by
  induction rs generalizing s with
  | nil => rfl
  | cons r rs ih =>
    simp only [chainNe, Bool.and_eq_true, decide_eq_true_eq] at hne
    obtain ⟨hsr, hrs⟩ := hne
    obtain ⟨hne_nil, hlast⟩ := sp_tail_facts gc hwf s r hsr
    have htl : (gc.sp s r).2.tail.getLastD s = r := by
      rw [getLast?_eq_some_getLastD _ s hne_nil, Option.some.injEq] at hlast
      exact hlast
    calc (s :: preTails gc s (r :: rs)).getLastD ""
        = ((gc.sp s r).2.tail ++ preTails gc r rs).getLastD s := by
          simp only [preTails, List.getLastD_cons]
      _ = (preTails gc r rs).getLastD ((gc.sp s r).2.tail.getLastD s) :=
          getLastD_append _ _ _
      _ = (preTails gc r rs).getLastD r := by rw [htl]
      _ = (r :: preTails gc r rs).getLastD "" := (List.getLastD_cons "" r _).symm
      _ = lastOf r rs := ih r hrs
      _ = lastOf s (r :: rs) := (lastOf_cons s r rs).symm

theorem segLast (gc : GraphContainer)
    (hwf : ∀ a b, ((gc.sp a b).2).head? = some a ∧ ((gc.sp a b).2).getLast? = some b)
    (s : String) (rs : List String) (t : String) (hne : chainNe s rs = true) :
    (s :: segTails gc s rs t).getLast? = some t := by
  by_cases hat : lastOf s rs = t
  · obtain ⟨t', ht'⟩ := sp_shape gc hwf (lastOf s rs) t
    have hl := (hwf (lastOf s rs) t).2
    cases t'' : t' with
    | nil =>
      have hseg : segTails gc s rs t = preTails gc s rs := by
        simp [segTails, ht', t'']
      rw [hseg, getLast?_eq_some_getLastD _ "" (by simp),
        pathLast gc hwf s rs hne, hat]
    | cons x t₃ =>
      have htail : (gc.sp (lastOf s rs) t).2.tail = x :: t₃ := by rw [ht', t'']; rfl
      have hlast : (x :: t₃).getLast? = some t := by
        rw [ht', t''] at hl
        simpa using hl
      show ((s :: preTails gc s rs) ++ (gc.sp (lastOf s rs) t).2.tail).getLast? = some t
      rw [htail, List.getLast?_append_of_ne_nil _ (by simp), hlast]
  · obtain ⟨hne_nil, hlast⟩ := sp_tail_facts gc hwf (lastOf s rs) t hat
    show ((s :: preTails gc s rs) ++ (gc.sp (lastOf s rs) t).2.tail).getLast? = some t
    rw [List.getLast?_append_of_ne_nil _ hne_nil, hlast]

theorem genPathsF_sound (gc : GraphContainer) (p : Params)
    (hwf : ∀ a b, ((gc.sp a b).2).head? = some a ∧ ((gc.sp a b).2).getLast? = some b)
    (hdesc : ∀ a, gc.isDescendant a a = false) (s sink : String) :
    ∀ (fuel : ℕ) (path : List String) (r : List String) (w : ℚ),
      path = s :: preTails gc s r →
      w = preCost gc s r →
      chainNe s r = true →
      preOK gc p.Lmax s r = true →
      r.Nodup →
      (∀ x ∈ r, x ∈ gc.possibleRepNodes) →
      ∀ tup ∈ genPathsF gc p fuel path sink r w,
        tup.1 = s :: segTails gc s tup.2.1 sink ∧
        tup.2.2 = chainCost gc s tup.2.1 sink ∧
        chainOK gc p.Lmax s tup.2.1 sink = true ∧
        chainNe s tup.2.1 = true ∧
        tup.2.1.Nodup ∧
        (∀ x ∈ tup.2.1, x ∈ gc.possibleRepNodes) ∧
        tup.2.1.length ≤ max r.length p.Nmax := by
  intro fuel
  induction fuel with
  | zero =>
    intro path r w hpath hw hne hok hnd hsub tup htup
    have hplast : path.getLastD "" = lastOf s r := by
      rw [hpath]
      exact pathLast gc hwf s r hne
    simp only [genPathsF] at htup
    rw [hplast] at htup
    split at htup
    · rw [List.mem_singleton] at htup
      subst htup
      refine ⟨by simp [segTails, hpath], by rw [hw]; rfl, ?_, hne, hnd, hsub,
        le_max_left _ _⟩
      simp only [chainOK, hok, Bool.true_and, decide_eq_true_eq]
      assumption
    · simp at htup
  | succ fuel ih =>
    intro path r w hpath hw hne hok hnd hsub tup htup
    have hplast : path.getLastD "" = lastOf s r := by
      rw [hpath]
      exact pathLast gc hwf s r hne
    simp only [genPathsF] at htup
    rw [hplast] at htup
    rcases List.mem_append.mp htup with hd | hr
    · split at hd
      · rw [List.mem_singleton] at hd
        subst hd
        refine ⟨by simp [segTails, hpath], by rw [hw]; rfl, ?_, hne, hnd, hsub,
          le_max_left _ _⟩
        simp only [chainOK, hok, Bool.true_and, decide_eq_true_eq]
        assumption
      · simp at hd
    · split at hr
      case isTrue hlen =>
        obtain ⟨rep, hrepmem, hr⟩ := List.mem_flatMap.mp hr
        split at hr
        case isTrue hcond =>
          split at hr
          case isTrue hc2 =>
            have hlast_ne : lastOf s r ≠ rep := by
              intro he
              have hdt := hcond.2
              rw [he, hdesc rep] at hdt
              exact Bool.false_ne_true hdt
            have hpath' : path ++ (gc.sp (lastOf s r) rep).2.tail
                = s :: preTails gc s (r ++ [rep]) := by
              rw [preTails_append, hpath]
              rfl
            have hw' : w + (gc.sp (lastOf s r) rep).1 = preCost gc s (r ++ [rep]) := by
              rw [preCost_append, hw]
            have hne' : chainNe s (r ++ [rep]) = true := by
              rw [chainNe_append]
              simp [hne, hlast_ne]
            have hok' : preOK gc p.Lmax s (r ++ [rep]) = true := by
              rw [preOK_append]
              simp [hok, hc2]
            have hnd' : (r ++ [rep]).Nodup :=
              List.Nodup.append hnd (List.nodup_singleton rep)
                (by simp [List.disjoint_singleton]; exact hcond.1)
            have hsub' : ∀ x ∈ r ++ [rep], x ∈ gc.possibleRepNodes := by
              intro x hx
              rcases List.mem_append.mp hx with h | h
              · exact hsub x h
              · rw [List.mem_singleton.mp h]
                exact hrepmem
            have hout := ih (path ++ (gc.sp (lastOf s r) rep).2.tail) (r ++ [rep])
              (w + (gc.sp (lastOf s r) rep).1) hpath' hw' hne' hok' hnd' hsub' tup hr
            refine ⟨hout.1, hout.2.1, hout.2.2.1, hout.2.2.2.1, hout.2.2.2.2.1,
              hout.2.2.2.2.2.1, ?_⟩
            calc tup.2.1.length ≤ max (r ++ [rep]).length p.Nmax :=
                hout.2.2.2.2.2.2
              _ = p.Nmax := by
                rw [List.length_append, List.length_singleton]
                exact max_eq_right (by omega)
              _ ≤ max r.length p.Nmax := le_max_right _ _
          case isFalse => simp at hr
        case isFalse => simp at hr
      case isFalse => simp at hr

/-- Claim C3: every tuple `(full_path, r_up, w_p)` produced by the
recursive path generation started at `path=[s], sink=t, r_up=[], w_p=0`
satisfies: the full path starts at `s` and ends at `t`; `r_up` is a
pairwise-distinct list of repeater nodes of length at most `N_max`; the
full path is the concatenation of the Dijkstra segment paths along
`s, r_up, t`, every segment has cost at most `L_max`; and `w_p` is the
sum of the segment costs.  (The hypotheses are the two networkx oracle
properties: a shortest path starts at its source and ends at its
target, and no node is its own descendant.) -/
theorem c3_generated_paths (gc : GraphContainer) (p : Params)
    (hwf : ∀ a b, ((gc.sp a b).2).head? = some a ∧ ((gc.sp a b).2).getLast? = some b)
    (hdesc : ∀ a, gc.isDescendant a a = false) (s t : String)
    (tup : List String × List String × ℚ)
    (htup : tup ∈ generatePaths gc p [s] t [] 0) :
    tup.1.head? = some s ∧
    tup.1.getLast? = some t ∧
    tup.2.1.Nodup ∧
    (∀ x ∈ tup.2.1, x ∈ gc.possibleRepNodes) ∧
    tup.2.1.length ≤ p.Nmax ∧
    tup.1 = s :: segTails gc s tup.2.1 t ∧
    chainOK gc p.Lmax s tup.2.1 t = true ∧
    tup.2.2 = chainCost gc s tup.2.1 t := by
  have h := genPathsF_sound gc p hwf hdesc s t (p.Nmax - ([] : List String).length)
    [s] [] 0 rfl rfl rfl rfl List.nodup_nil (by intro x hx; simp at hx) tup htup
  obtain ⟨h1, h2, h3, h4, h5, h6, h7⟩ := h
  refine ⟨?_, ?_, h5, h6, by simpa using h7, h1, h3, h2⟩
  · rw [h1]
    rfl
  · rw [h1]
    exact segLast gc hwf s tup.2.1 t h4

theorem c3_generated_paths_witness :
    tupW.1.head? = some "A" ∧
    tupW.1.getLast? = some "B" ∧
    tupW.2.1.Nodup ∧
    (∀ x ∈ tupW.2.1, x ∈ gcW.possibleRepNodes) ∧
    tupW.2.1.length ≤ pW.Nmax ∧
    tupW.1 = "A" :: segTails gcW "A" tupW.2.1 "B" ∧
    chainOK gcW pW.Lmax "A" tupW.2.1 "B" = true ∧
    tupW.2.2 = chainCost gcW "A" tupW.2.1 "B" :=
  c3_generated_paths gcW pW (by intro a b; exact ⟨rfl, rfl⟩)
    (by intro a; simp [gcW]) "A" "B" tupW
    (by
      have h : generatePaths gcW pW ["A"] "B" [] 0
          = [(["A", "R1", "B"], ["R1"], (0 : ℚ) + 1 + 1)] := rfl
      rw [h]
      norm_num [tupW])

theorem genPathsF_fuel_congr (gc : GraphContainer) (p : Params) (sink : String) :
    ∀ (fuel₁ fuel₂ : ℕ) (path : List String) (r : List String) (w : ℚ),
      p.Nmax - r.length ≤ fuel₁ → p.Nmax - r.length ≤ fuel₂ →
      genPathsF gc p fuel₁ path sink r w = genPathsF gc p fuel₂ path sink r w := by
  intro fuel₁
  induction fuel₁ with
  | zero =>
    intro fuel₂ path r w h₁ h₂
    cases fuel₂ with
    | zero => rfl
    | succ m =>
      simp only [genPathsF, if_neg (by omega : ¬ r.length < p.Nmax), List.append_nil]
  | succ n ihn =>
    intro fuel₂ path r w h₁ h₂
    cases fuel₂ with
    | zero =>
      simp only [genPathsF, if_neg (by omega : ¬ r.length < p.Nmax), List.append_nil]
    | succ m =>
      simp only [genPathsF]
      congr 1
      by_cases hlen : r.length < p.Nmax
      · simp only [if_pos hlen]
        congr 1
        funext rep
        by_cases hc1 : rep ∉ r ∧ gc.isDescendant (path.getLastD "") rep
        · by_cases hc2 : (gc.sp (path.getLastD "") rep).1 ≤ p.Lmax
          · simp only [if_pos hc1, if_pos hc2]
            exact ihn m _ _ _
              (by simp only [List.length_append, List.length_singleton]; omega)
              (by simp only [List.length_append, List.length_singleton]; omega)
          · simp only [if_pos hc1, if_neg hc2]
        · simp only [if_neg hc1]
      · simp only [if_neg hlen]

/-- Claim C8: the recursive path generation terminates: its recursion
depth is bounded by the measure `N_max - len(r_up)`, which strictly
decreases at each recursive call (each call extends `r_up` by one new
repeater node and recursion only happens while `len(r_up) < N_max`).
Formally, running the fuelled recursion with any fuel at least
`N_max - len(r_up)` yields the same result as `generatePaths`, whose
fuel is exactly that measure, so no call chain is longer than
`N_max - len(r_up) ≤ N_max`. -/
theorem c8_generation_terminates (gc : GraphContainer) (p : Params) (fuel : ℕ)
    (path : List String) (sink : String) (r : List String) (w : ℚ)
    (hfuel : p.Nmax - r.length ≤ fuel) :
    genPathsF gc p fuel path sink r w = generatePaths gc p path sink r w :=
  genPathsF_fuel_congr gc p sink fuel (p.Nmax - r.length) path r w hfuel le_rfl

theorem c8_generation_terminates_witness :
    genPathsF gcW pW 5 ["A"] "B" [] 0 = generatePaths gcW pW ["A"] "B" [] 0 :=
  c8_generation_terminates gcW pW 5 ["A"] "B" [] 0 (by decide)

theorem c9_init_validation_witness :
    isError (initFormulation gcW 5 2 3 1 0)
      = (decide ((5 : ℤ) < 1) || isError (checkIfFeasible gcW 2) || decide ((3 : ℤ) < 0)
         || decide ((1 : ℤ) < 1 ∨ (1 : ℤ) > (gcW.numRepeaterNodes : ℤ) + 1)
         || decide ((0 : ℚ) < 0)) ∧
    (!decide ((2 : ℚ) < 0) || isError (checkIfFeasible gcW 2)) = true ∧
    (initFormulation gcW 5 2 3 1 0 = .ok ⟨2, 2, 1, 1, 0⟩ ↔
      ((1 : ℤ) ≤ 5 ∧ checkIfFeasible gcW 2 = .ok () ∧ (0 : ℤ) ≤ 3 ∧ (1 : ℤ) ≤ 1 ∧
        (1 : ℤ) ≤ (gcW.numRepeaterNodes : ℤ) + 1 ∧ (0 : ℚ) ≤ 0 ∧
        (⟨2, 2, 1, 1, 0⟩ : Params)
          = ⟨(min (5 : ℤ) (gcW.numRepeaterNodes : ℤ)).toNat, 2,
             (min (3 : ℤ) (gcW.numUniquePairs : ℤ)).toNat, (1 : ℤ).toNat, 0⟩)) :=
  c9_init_validation gcW 5 2 3 1 0 ⟨2, 2, 1, 1, 0⟩

theorem c10_feasibility_check_witness :
    isError (checkIfFeasible gcW (1/2))
      = (decide ((1/2 : ℚ) < 0)
         || gcW.endNodes.any (fun v => !hasFeasibleEdge gcW (1/2) v)) ∧
    (!(isError (checkIfFeasible gcW (1/2)))
      || isError (initFormulation gcW 5 (1/2) 1 1 0)) = true :=
  c10_feasibility_check gcW (1/2) 5 1 1 0
